import Mathlib

/-!
Verification of the Currency Tracker exchange-rate pipeline.

Shallow embedding of the core of the repository:
  * `src/utils/currencies_api.py` — `get_currencies` (feed client) and the
    `logger` decorator (instrumentation wrapper);
  * `src/models/currency.py` — the `Currency` class with validating setters;
  * `src/myapp.py` — `CurrencyTrackerHandler._handle_currencies`
    (rate integrator with whole-batch fallback).

Python exceptions are modelled by the `PyError` inductive; fallible code
returns `Except PyError _`.  Rates are rationals (`ℚ`), integer fields are
`ℤ`.  The network layer (`requests.get` / `raise_for_status` /
`response.json()`) is modelled as an input of type `Except PyError FeedDoc`:
either a transport/parse failure or the parsed JSON document.
The logging side channel inside `get_currencies` is not modelled (it does not
affect any value the claims speak about); the instrumentation wrapper itself
is modelled separately as `loggerWrap`.
-/

namespace CurrencyTracker

/-- Python exception values as raised by the sources: the dynamic exception
class name together with its message.  `requestException` stands for the
`requests.exceptions.*` hierarchy (transport failures). -/
inductive PyError where
  | typeError (msg : String)
  | keyError (msg : String)
  | valueError (msg : String)
  | requestException (msg : String)
  deriving DecidableEq, Repr

/-- Models `type(e).__name__` as used by the `logger` decorator. -/
def PyError.pyTypeName : PyError → String
  | .typeError _ => "TypeError"
  | .keyError _ => "KeyError"
  | .valueError _ => "ValueError"
  | .requestException _ => "RequestException"

/-- The exception message (`str(e)`). -/
def PyError.message : PyError → String
  | .typeError m => m
  | .keyError m => m
  | .valueError m => m
  | .requestException m => m

/-- The error raised at currencies_api.py line 135 when the top-level
key is missing (a `KeyError`): the `MalformedFeed` kind of the spec. -/
def malformedFeedErr : PyError :=
  .keyError "Нет ключа \x27Valute\x27 в данных API"

/-- The error raised at currencies_api.py line 130 for a requested code
absent from the feed (a `KeyError` naming the code): the `CodeNotFound(code)`
kind of the spec. -/
def codeNotFoundErr (code : String) : PyError :=
  .keyError ("Валюта \x27" ++ code ++ "\x27 не найдена")

/-- The error raised at currencies_api.py line 124 for a code whose rate
value is not numeric (a `TypeError` naming the code): the
`InvalidRateType(code)` kind of the spec. -/
def invalidRateTypeErr (code : String) : PyError :=
  .typeError ("Курс валюты \x27" ++ code ++ "\x27 имеет неверный тип")

/-- The `"Value"` field of one entry of the `"Valute"` object of the feed:
either numeric (`int`/`float`, modelled as `ℚ`) or of some other type. -/
inductive FeedValue where
  | num (v : ℚ)
  | nonNum
  deriving DecidableEq, Repr

/-- The parsed JSON document returned by the feed.  `valute = none` models a
document without the top-level `"Valute"` key; otherwise `valute` is the
`"Valute"` object, a mapping from symbolic code to its `"Value"` field. -/
structure FeedDoc where
  valute : Option (List (String × FeedValue))
  deriving DecidableEq, Repr

/-- The numeric `"Value"` of `k` in the `"Valute"` object, when present. -/
def feedNum (valute : List (String × FeedValue)) (k : String) : Option ℚ :=
  match valute.lookup k with
  | some (.num v) => some v
  | _ => none

/-- Python `dict` insertion `d[k] = v` on an association list: overwrite in
place when the key is present (keeping its position), else append. -/
def dictInsert (d : List (String × ℚ)) (k : String) (v : ℚ) :
    List (String × ℚ) :=
  match d with
  | [] => [(k, v)]
  | (k0, v0) :: rest =>
    if k0 = k then (k0, v) :: rest else (k0, v0) :: dictInsert rest k v

/-- The `for code in currency_codes` loop of `get_currencies`
(currencies_api.py lines 119–130): for each requested code in order, fail
with `codeNotFoundErr` if absent from `"Valute"`, with `invalidRateTypeErr`
if its `"Value"` is not numeric, else record `code -> value`. -/
def fetchLoop (valute : List (String × FeedValue)) :
    List String → List (String × ℚ) → Except PyError (List (String × ℚ))
  | [], acc => .ok acc
  | code :: rest, acc =>
    match valute.lookup code with
    | some (.num v) => fetchLoop valute rest (dictInsert acc code v)
    | some .nonNum => .error (invalidRateTypeErr code)
    | none => .error (codeNotFoundErr code)

/-- Models `get_currencies(currency_codes, url)` (currencies_api.py lines 89–157).
`net` is the outcome of the network/parse layer (`requests.get`,
`raise_for_status`, `response.json()`): its failure is re-raised unchanged by
the `except` clauses of the function.  On a parsed document, the top-level
`"Valute"` key is checked first; then the requested codes are processed in
order by `fetchLoop`. -/
def get_currencies (currency_codes : List String)
    (net : Except PyError FeedDoc) : Except PyError (List (String × ℚ)) :=
  match net with
  | .error e => .error e
  | .ok data =>
    match data.valute with
    | none => .error malformedFeedErr
    | some valute => fetchLoop valute currency_codes []

/-- Log levels of the instrumentation records. -/
inductive LogLevel where
  | info
  | error
  deriving DecidableEq, Repr

/-- One record sent to the sink: a level and a free-text message. -/
structure LogRecord where
  level : LogLevel
  msg : String
  deriving DecidableEq, Repr

/-- The `inner` closure of the `logger` decorator with a sink attached
(currencies_api.py lines 63–82): emit the start record, run the operation;
on normal return emit the completion record and return the result unchanged;
on failure emit the error record (the exception class name and message) and re-raise
the failure unchanged.  The outcome of the wrapped operation is `op`; `fmt`
renders its result for the completion message (the f-string interpolation).
Returns the outcome of the operation and the records the wrapper emitted. -/
def loggerWrap (name argsStr : String) (fmt : α → String)
    (op : Except PyError α) : Except PyError α × List LogRecord :=
  match op with
  | .ok r =>
    (.ok r,
      [⟨.info, "Старт " ++ name ++ ", args=" ++ argsStr⟩,
       ⟨.info, "Завершение " ++ name ++ ", результат=" ++ fmt r⟩])
  | .error e =>
    (.error e,
      [⟨.info, "Старт " ++ name ++ ", args=" ++ argsStr⟩,
       ⟨.error, e.pyTypeName ++ ": " ++ e.message⟩])

/-- Models Python `str.strip()`: remove leading and trailing whitespace.
Defined structurally over the character list so that concrete instances
reduce. -/
def pyStrip (s : String) : String :=
  ⟨((s.data.dropWhile Char.isWhitespace).reverse.dropWhile
      Char.isWhitespace).reverse⟩

/-- Models Python `str.upper()` on the character list. -/
def pyUpper (s : String) : String :=
  ⟨s.data.map Char.toUpper⟩

/-- A constructed `Currency` object (currency.py): the six private fields
after validated initialization.  Python dynamic `isinstance` type checks
are absorbed by the static types (`ℤ` for `int`, `ℚ` for `int`/`float`,
`String` for `str`). -/
structure Currency where
  id : ℤ
  num_code : ℤ
  char_code : String
  name : String
  value : ℚ
  nominal : ℤ
  deriving DecidableEq, Repr

/-- The `id` setter (currency.py lines 68–84): rejects non-positive values. -/
def Currency.setId (c : Currency) (v : ℤ) : Except PyError Currency :=
  if v ≤ 0 then .error (.valueError "ID должен быть положительным числом")
  else .ok { c with id := v }

/-- The `num_code` setter (currency.py lines 96–112): rejects non-positive
values. -/
def Currency.setNumCode (c : Currency) (v : ℤ) : Except PyError Currency :=
  if v ≤ 0 then
    .error (.valueError "Цифровой код должен быть положительным числом")
  else .ok { c with num_code := v }

/-- The `char_code` setter (currency.py lines 124–142): rejects a blank
string and a stripped length other than 3; stores `value.strip().upper()`.
Note the source checks only the stripped *length*, not that the characters
are letters. -/
def Currency.setCharCode (c : Currency) (v : String) :
    Except PyError Currency :=
  if pyStrip v = "" then
    .error (.valueError "Символьный код не может быть пустым")
  else if (pyStrip v).length ≠ 3 then
    .error (.valueError "Символьный код должен состоять из 3 символов")
  else .ok { c with char_code := pyUpper (pyStrip v) }

/-- The `name` setter (currency.py lines 154–170): rejects a blank string;
stores `value.strip()`. -/
def Currency.setName (c : Currency) (v : String) : Except PyError Currency :=
  if pyStrip v = "" then .error (.valueError "Название не может быть пустым")
  else .ok { c with name := pyStrip v }

/-- The `value` (rate) setter (currency.py lines 182–198): rejects
non-positive values; stores `float(value)`. -/
def Currency.setValue (c : Currency) (v : ℚ) : Except PyError Currency :=
  if v ≤ 0 then .error (.valueError "Курс должен быть положительным числом")
  else .ok { c with value := v }

/-- The `nominal` setter (currency.py lines 210–226): rejects non-positive
values. -/
def Currency.setNominal (c : Currency) (v : ℤ) : Except PyError Currency :=
  if v ≤ 0 then
    .error (.valueError "Номинал должен быть положительным числом")
  else .ok { c with nominal := v }

/-- Models `Currency.__init__` (currency.py lines 19–56): starts from `None` fields
and assigns through the six validating setters in declaration order; the
first failing setter aborts construction with its exception. -/
def Currency.make (currency_id num_code : ℤ) (char_code name : String)
    (value : ℚ) (nominal : ℤ) : Except PyError Currency := do
  let c : Currency := ⟨0, 0, "", "", 0, 0⟩
  let c ← c.setId currency_id
  let c ← c.setNumCode num_code
  let c ← c.setCharCode char_code
  let c ← c.setName name
  let c ← c.setValue value
  c.setNominal nominal

/-- Models `Currency.get_value_per_unit` (currency.py lines 228–235):
`self.value / self.nominal`. -/
def Currency.get_value_per_unit (c : Currency) : ℚ :=
  c.value / (c.nominal : ℚ)

/-- One rendered row of the currencies table: the dict built per currency in
`_handle_currencies` (myapp.py lines 316–325 / 328–337 / 354–363). -/
structure Row where
  id : ℤ
  num_code : ℤ
  char_code : String
  name : String
  value : ℚ
  nominal : ℤ
  value_per_unit : ℚ
  change : ℚ
  deriving DecidableEq, Repr

/-- The row dict for currency `c` with the given `change` field. -/
def rowOf (c : Currency) (change : ℚ) : Row :=
  ⟨c.id, c.num_code, c.char_code, c.name, c.value, c.nominal,
    c.get_value_per_unit, change⟩

/-- The `for currency in self._currencies` update loop of
`_handle_currencies` (myapp.py lines 307–337), with the possibility that the
validating `value` setter raises mid-loop.  Returns the post-state of the
currency list, the rows built so far, and the raised exception when one
occurred.  When a setter raises at some record, that record and all later
ones are left unchanged, while earlier records keep their already-written
new rates (Python mutates in place and the exception aborts the loop). -/
def updateLoop (api : List (String × ℚ)) :
    List Currency → List Currency × List Row × Option PyError
  | [] => ([], [], none)
  | c :: rest =>
    match api.lookup c.char_code with
    | some newV =>
      match c.setValue newV with
      | .error e => (c :: rest, [], some e)
      | .ok c2 =>
        let r := updateLoop api rest
        (c2 :: r.1,
          rowOf c2 (if c.value ≠ 0 then c2.value - c.value else 0) :: r.2.1,
          r.2.2)
    | none =>
      let r := updateLoop api rest
      (c :: r.1, rowOf c 0 :: r.2.1, r.2.2)

/-- The static-data rows of the `except` branch of `_handle_currencies`
(myapp.py lines 352–363): current values, `change = 0`. -/
def staticRows (records : List Currency) : List Row :=
  records.map (fun c => rowOf c 0)

/-- What `_handle_currencies` renders: the table rows, whether the page was
annotated as static/stale data (the `" (статические данные)"` suffix on
`update_time` in the `except` branch), and the post-state of the
`_currencies` collection.  That the handler returns an `Outcome` totally —
rather than an `Except` — embeds the fact that no feed failure propagates to
the page-serving caller. -/
structure Outcome where
  rows : List Row
  stale : Bool
  records : List Currency
  deriving DecidableEq, Repr

/-- Models `CurrencyTrackerHandler._handle_currencies` (myapp.py lines 295–372):
derive the codes from the collection, call `get_currencies`; on success run
the update loop and render fresh rows; if anything in the `try` block raises
(the feed call or a `value` setter mid-loop), fall back to rendering the
*current* collection state as static data with `change = 0`. -/
def handle_currencies (records : List Currency)
    (net : Except PyError FeedDoc) : Outcome :=
  match get_currencies (records.map (fun c => c.char_code)) net with
  | .error _ => ⟨staticRows records, true, records⟩
  | .ok api =>
    let r := updateLoop api records
    match r.2.2 with
    | none => ⟨r.2.1, false, r.1⟩
    | some _ => ⟨staticRows r.1, true, r.1⟩

/-- The success-path post-state of one record (myapp.py lines 308–312): the
rate overwritten by the fetched value when the code of the record is in the
`FetchResult`, unchanged otherwise. -/
def updatedRecord (api : List (String × ℚ)) (c : Currency) : Currency :=
  match api.lookup c.char_code with
  | some v => { c with value := v }
  | none => c

/-- The success-path row of one record (myapp.py lines 308–337): fetched
value and `change = new - old` (0 when the old rate was falsy) when the
code of the record is in the `FetchResult`; old value and `change = 0`
otherwise. -/
def successRow (api : List (String × ℚ)) (c : Currency) : Row :=
  match api.lookup c.char_code with
  | some v =>
    rowOf { c with value := v } (if c.value ≠ 0 then v - c.value else 0)
  | none => rowOf c 0

/-! ## Helper lemmas -/

lemma lookup_mem {β : Type} : ∀ (l : List (String × β)) (k : String) (v : β),
    l.lookup k = some v → (k, v) ∈ l
  | [], k, v, h => by simp at h
  | (k0, v0) :: rest, k, v, h => by
    by_cases hk : k = k0
    · subst hk
      simp only [List.lookup_cons, beq_self_eq_true, Option.some.injEq] at h
      simp [h]
    · have h2 : rest.lookup k = some v := by
        simpa [List.lookup_cons, beq_false_of_ne hk] using h
      exact List.mem_cons_of_mem _ (lookup_mem rest k v h2)

lemma lookup_dictInsert_self (k : String) (v : ℚ) :
    ∀ d : List (String × ℚ), (dictInsert d k v).lookup k = some v
  | [] => by simp [dictInsert]
  | (k0, v0) :: rest => by
    by_cases hk : k0 = k
    · subst hk
      simp [dictInsert]
    · simp only [dictInsert, if_neg hk, List.lookup_cons,
        beq_false_of_ne (fun h => hk h.symm)]
      exact lookup_dictInsert_self k v rest

lemma lookup_dictInsert_ne (k q : String) (v : ℚ) (hne : q ≠ k) :
    ∀ d : List (String × ℚ), (dictInsert d k v).lookup q = d.lookup q
  | [] => by simp [dictInsert, List.lookup_cons, beq_false_of_ne hne]
  | (k0, v0) :: rest => by
    by_cases hk : k0 = k
    · subst hk
      simp [dictInsert, List.lookup_cons, beq_false_of_ne hne]
    · simp only [dictInsert, if_neg hk, List.lookup_cons]
      cases hq : (q == k0) with
      | true => rfl
      | false => exact lookup_dictInsert_ne k q v hne rest

lemma mem_dictInsert (k : String) (v : ℚ) :
    ∀ (d : List (String × ℚ)) (p : String × ℚ),
      p ∈ dictInsert d k v → p.1 = k ∨ p ∈ d
  | [], p, h => by
    simp [dictInsert] at h
    simp [h]
  | (k0, v0) :: rest, p, h => by
    by_cases hk : k0 = k
    · subst hk
      simp only [dictInsert, ite_true, eq_self_iff_true, if_true,
        List.mem_cons] at h
      rcases h with h | h
      · exact Or.inl (by simp [h])
      · exact Or.inr (List.mem_cons_of_mem _ h)
    · simp only [dictInsert, if_neg hk, List.mem_cons] at h
      rcases h with h | h
      · exact Or.inr (by simp [h])
      · rcases mem_dictInsert k v rest p h with h2 | h2
        · exact Or.inl h2
        · exact Or.inr (List.mem_cons_of_mem _ h2)

lemma fetchLoop_preserves (valute : List (String × FeedValue)) :
    ∀ (codes : List String) (acc res : List (String × ℚ)),
      fetchLoop valute codes acc = .ok res →
      ∀ k, (acc.lookup k).isSome → (res.lookup k).isSome
  | [], acc, res, h, k, hk => by
    simp only [fetchLoop, Except.ok.injEq] at h
    exact h ▸ hk
  | code :: rest, acc, res, h, k, hk => by
    cases hv : valute.lookup code with
    | none => simp [fetchLoop, hv] at h
    | some fv =>
      cases fv with
      | nonNum => simp [fetchLoop, hv] at h
      | num v =>
        have h2 : fetchLoop valute rest (dictInsert acc code v) = .ok res := by
          simpa [fetchLoop, hv] using h
        refine fetchLoop_preserves valute rest _ res h2 k ?_
        by_cases hqk : k = code
        · subst hqk
          simp [lookup_dictInsert_self]
        · rw [lookup_dictInsert_ne code k v hqk]
          exact hk

lemma fetchLoop_covers (valute : List (String × FeedValue)) :
    ∀ (codes : List String) (acc res : List (String × ℚ)),
      fetchLoop valute codes acc = .ok res →
      ∀ c ∈ codes, (res.lookup c).isSome
  | [], acc, res, h, c, hc => absurd hc (List.not_mem_nil c)
  | code :: rest, acc, res, h, c, hc => by
    cases hv : valute.lookup code with
    | none => simp [fetchLoop, hv] at h
    | some fv =>
      cases fv with
      | nonNum => simp [fetchLoop, hv] at h
      | num v =>
        have h2 : fetchLoop valute rest (dictInsert acc code v) = .ok res := by
          simpa [fetchLoop, hv] using h
        rcases List.mem_cons.mp hc with hc | hc
        · subst hc
          exact fetchLoop_preserves valute rest _ res h2 c
            (by simp [lookup_dictInsert_self])
        · exact fetchLoop_covers valute rest _ res h2 c hc

lemma fetchLoop_lookup_ok (valute : List (String × FeedValue)) :
    ∀ (codes : List String) (acc : List (String × ℚ)),
      (∀ c ∈ codes, ∃ v, valute.lookup c = some (.num v)) →
      ∃ res, fetchLoop valute codes acc = .ok res ∧
        ∀ k, res.lookup k =
          if k ∈ codes then feedNum valute k else acc.lookup k
  | [], acc, h => ⟨acc, rfl, fun k => by simp⟩
  | code :: rest, acc, h => by
    obtain ⟨v, hv⟩ := h code (by simp)
    obtain ⟨res, hres, hlook⟩ :=
      fetchLoop_lookup_ok valute rest (dictInsert acc code v)
        (fun y hy => h y (List.mem_cons_of_mem _ hy))
    refine ⟨res, by simpa [fetchLoop, hv] using hres, fun k => ?_⟩
    rw [hlook k]
    by_cases hk1 : k ∈ rest
    · simp [hk1, List.mem_cons]
    · by_cases hk2 : k = code
      · subst hk2
        simp [hk1, lookup_dictInsert_self, feedNum, hv]
      · simp only [if_neg hk1, lookup_dictInsert_ne code k v hk2]
        simp [List.mem_cons, hk1, hk2]

lemma fetchLoop_keys (valute : List (String × FeedValue)) :
    ∀ (codes : List String) (acc res : List (String × ℚ)),
      fetchLoop valute codes acc = .ok res →
      ∀ p ∈ res, p.1 ∈ codes ∨ ∃ q ∈ acc, p.1 = q.1
  | [], acc, res, h, p, hp => by
    simp only [fetchLoop, Except.ok.injEq] at h
    exact Or.inr ⟨p, h ▸ hp, rfl⟩
  | code :: rest, acc, res, h, p, hp => by
    cases hv : valute.lookup code with
    | none => simp [fetchLoop, hv] at h
    | some fv =>
      cases fv with
      | nonNum => simp [fetchLoop, hv] at h
      | num v =>
        have h2 : fetchLoop valute rest (dictInsert acc code v) = .ok res := by
          simpa [fetchLoop, hv] using h
        rcases fetchLoop_keys valute rest _ res h2 p hp with hk | ⟨q, hq, hpq⟩
        · exact Or.inl (List.mem_cons_of_mem _ hk)
        · rcases mem_dictInsert code v acc q hq with hq2 | hq2
          · exact Or.inl (by simp [hpq, hq2])
          · exact Or.inr ⟨q, hq2, hpq⟩

lemma fetchLoop_through (valute : List (String × FeedValue)) :
    ∀ (pre : List String) (acc : List (String × ℚ)),
      (∀ x ∈ pre, ∃ v, valute.lookup x = some (.num v)) →
      ∃ acc2, ∀ tail : List String,
        fetchLoop valute (pre ++ tail) acc = fetchLoop valute tail acc2
  | [], acc, _ => ⟨acc, fun tail => rfl⟩
  | x :: pre, acc, h => by
    obtain ⟨v, hv⟩ := h x (by simp)
    obtain ⟨acc2, ha⟩ :=
      fetchLoop_through valute pre (dictInsert acc x v)
        (fun y hy => h y (List.mem_cons_of_mem _ hy))
    refine ⟨acc2, fun tail => ?_⟩
    rw [List.cons_append]
    simpa [fetchLoop, hv] using ha tail

lemma setValue_ok (c c2 : Currency) (v : ℚ) (h : c.setValue v = .ok c2) :
    0 < v ∧ c2 = { c with value := v } := by
  unfold Currency.setValue at h
  split_ifs at h with hv
  simp only [Except.ok.injEq] at h
  exact ⟨not_le.mp hv, h.symm⟩

lemma setValue_pos_eq (c : Currency) (v : ℚ) (hv : 0 < v) :
    c.setValue v = .ok { c with value := v } := by
  unfold Currency.setValue
  rw [if_neg (not_le.mpr hv)]

lemma make_ok_iff (cid nc : ℤ) (cc nm : String) (v : ℚ) (nom : ℤ) :
    (Currency.make cid nc cc nm v nom).isOk = true ↔
      (0 < cid ∧ 0 < nc ∧ (pyStrip cc).length = 3 ∧ pyStrip nm ≠ "" ∧
        0 < v ∧ 0 < nom) := by
  unfold Currency.make Currency.setId Currency.setNumCode Currency.setCharCode
    Currency.setName Currency.setValue Currency.setNominal
  simp only [bind, Except.bind]
  split_ifs <;> simp_all [not_le, Except.isOk, Except.toBool]

lemma make_ok_val (cid nc : ℤ) (cc nm : String) (v : ℚ) (nom : ℤ)
    (c : Currency) (h : Currency.make cid nc cc nm v nom = .ok c) :
    c = ⟨cid, nc, pyUpper (pyStrip cc), pyStrip nm, v, nom⟩ := by
  unfold Currency.make Currency.setId Currency.setNumCode Currency.setCharCode
    Currency.setName Currency.setValue Currency.setNominal at h
  simp only [bind, Except.bind] at h
  split_ifs at h
  simp_all

/-- The data-model invariant of the spec for one RateRecord:
`rate > 0`, `nominal > 0`. -/
def rateInvariant (c : Currency) : Prop := 0 < c.value ∧ 0 < c.nominal

lemma perUnit_pos (c : Currency) (h : rateInvariant c) :
    0 < c.get_value_per_unit :=
  div_pos h.1 (by exact_mod_cast h.2)

/-- All fields of a RateRecord except the mutable `rate` agree. -/
def sameFrame (a b : Currency) : Prop :=
  a.id = b.id ∧ a.num_code = b.num_code ∧ a.char_code = b.char_code ∧
    a.name = b.name ∧ a.nominal = b.nominal

lemma forall2_sameFrame_refl : ∀ l : List Currency, List.Forall₂ sameFrame l l
  | [] => List.Forall₂.nil
  | _ :: rest =>
    List.Forall₂.cons ⟨rfl, rfl, rfl, rfl, rfl⟩ (forall2_sameFrame_refl rest)

lemma updateLoop_frame (api : List (String × ℚ)) :
    ∀ recs : List Currency, List.Forall₂ sameFrame recs (updateLoop api recs).1
  | [] => by
    simp only [updateLoop]
    exact List.Forall₂.nil
  | c :: rest => by
    cases hl : api.lookup c.char_code with
    | some newV =>
      cases hs : c.setValue newV with
      | error e =>
        simp only [updateLoop, hl, hs]
        exact forall2_sameFrame_refl (c :: rest)
      | ok c2 =>
        obtain ⟨-, hc2⟩ := setValue_ok c c2 newV hs
        simp only [updateLoop, hl, hs]
        exact List.Forall₂.cons
          (by subst hc2; exact ⟨rfl, rfl, rfl, rfl, rfl⟩)
          (updateLoop_frame api rest)
    | none =>
      simp only [updateLoop, hl]
      exact List.Forall₂.cons ⟨rfl, rfl, rfl, rfl, rfl⟩
        (updateLoop_frame api rest)

lemma updateLoop_invariant (api : List (String × ℚ)) :
    ∀ recs : List Currency, (∀ r ∈ recs, rateInvariant r) →
      ∀ r ∈ (updateLoop api recs).1, rateInvariant r
  | [], _, r, hr => by
    simp only [updateLoop] at hr
    exact absurd hr (List.not_mem_nil r)
  | c :: rest, hinv, r, hr => by
    cases hl : api.lookup c.char_code with
    | some newV =>
      cases hs : c.setValue newV with
      | error e =>
        simp only [updateLoop, hl, hs] at hr
        exact hinv r hr
      | ok c2 =>
        obtain ⟨hv, hc2⟩ := setValue_ok c c2 newV hs
        simp only [updateLoop, hl, hs, List.mem_cons] at hr
        rcases hr with hr | hr
        · subst hr
          subst hc2
          exact ⟨hv, (hinv c (by simp)).2⟩
        · exact updateLoop_invariant api rest
            (fun x hx => hinv x (List.mem_cons_of_mem _ hx)) r hr
    | none =>
      simp only [updateLoop, hl, List.mem_cons] at hr
      rcases hr with hr | hr
      · subst hr
        exact hinv r (by simp)
      · exact updateLoop_invariant api rest
          (fun x hx => hinv x (List.mem_cons_of_mem _ hx)) r hr

lemma updateLoop_success (api : List (String × ℚ))
    (hpos : ∀ p ∈ api, 0 < p.2) :
    ∀ recs : List Currency,
      updateLoop api recs =
        (recs.map (updatedRecord api), recs.map (successRow api), none)
  | [] => by simp [updateLoop]
  | c :: rest => by
    cases hl : api.lookup c.char_code with
    | none =>
      simp [updateLoop, hl, updatedRecord, successRow,
        updateLoop_success api hpos rest]
    | some newV =>
      have hv : 0 < newV :=
        hpos (c.char_code, newV) (lookup_mem api c.char_code newV hl)
      simp [updateLoop, hl, setValue_pos_eq c newV hv, updatedRecord,
        successRow, updateLoop_success api hpos rest]

lemma setId_ok (c c2 : Currency) (x : ℤ) (h : c.setId x = .ok c2) :
    c2.value = c.value ∧ c2.nominal = c.nominal := by
  unfold Currency.setId at h
  split_ifs at h
  simp only [Except.ok.injEq] at h
  rw [← h]
  exact ⟨rfl, rfl⟩

lemma setNumCode_ok (c c2 : Currency) (x : ℤ) (h : c.setNumCode x = .ok c2) :
    c2.value = c.value ∧ c2.nominal = c.nominal := by
  unfold Currency.setNumCode at h
  split_ifs at h
  simp only [Except.ok.injEq] at h
  rw [← h]
  exact ⟨rfl, rfl⟩

lemma setCharCode_ok (c c2 : Currency) (s : String)
    (h : c.setCharCode s = .ok c2) :
    c2.value = c.value ∧ c2.nominal = c.nominal := by
  unfold Currency.setCharCode at h
  split_ifs at h
  simp only [Except.ok.injEq] at h
  rw [← h]
  exact ⟨rfl, rfl⟩

lemma setName_ok (c c2 : Currency) (s : String) (h : c.setName s = .ok c2) :
    c2.value = c.value ∧ c2.nominal = c.nominal := by
  unfold Currency.setName at h
  split_ifs at h
  simp only [Except.ok.injEq] at h
  rw [← h]
  exact ⟨rfl, rfl⟩

lemma setNominal_ok (c c2 : Currency) (x : ℤ) (h : c.setNominal x = .ok c2) :
    0 < x ∧ c2.value = c.value ∧ c2.nominal = x := by
  unfold Currency.setNominal at h
  split_ifs at h with hx
  simp only [Except.ok.injEq] at h
  rw [← h]
  exact ⟨not_le.mp hx, rfl, rfl⟩

lemma forall2_staticRows : ∀ l : List Currency,
    List.Forall₂ (fun c row => Row.value row = c.value ∧ Row.change row = 0)
      l (staticRows l)
  | [] => List.Forall₂.nil
  | _ :: rest => List.Forall₂.cons ⟨rfl, rfl⟩ (forall2_staticRows rest)

lemma handle_records_invariant (records : List Currency)
    (net : Except PyError FeedDoc) (hinv : ∀ r ∈ records, rateInvariant r) :
    ∀ r ∈ (handle_currencies records net).records, rateInvariant r := by
  unfold handle_currencies
  cases hg : get_currencies (records.map (fun c => c.char_code)) net with
  | error e => simpa using hinv
  | ok api =>
    cases h2 : (updateLoop api records).2.2 with
    | none =>
      simp only [h2]
      simpa using updateLoop_invariant api records hinv
    | some e =>
      simp only [h2]
      simpa using updateLoop_invariant api records hinv

/-! ## Sample data for concrete instantiations

The seed records are shaped like the `_currencies` collection of
`CurrencyTrackerHandler` (myapp.py lines 36–43), with integer-valued rates
so that concrete goals reduce without rational normalization.  The feed
documents are concrete parsed responses: a well-formed one, one with a
negative rate, one with a non-numeric `"Value"`, and one missing the
`"Valute"` key. -/

def usdSeed : Currency := ⟨1, 840, "USD", "Доллар США", 90, 1⟩

def eurSeed : Currency := ⟨2, 978, "EUR", "Евро", 98, 1⟩

def feedOkDoc : FeedDoc := ⟨some [("USD", .num 92), ("EUR", .num 99)]⟩

def feedBadRateDoc : FeedDoc := ⟨some [("USD", .num 100), ("EUR", .num (-5))]⟩

def feedNonNumDoc : FeedDoc := ⟨some [("USD", .nonNum), ("EUR", .num 99)]⟩

def feedNoValuteDoc : FeedDoc := ⟨none⟩

/-! ## Claim theorems -/

/-- Claim C1: for every currency collection, when the (instrumented) Feed
Client call raises any error kind, the refresh renders the fallback: every
RateRecord keeps its prior rate (the rows are exactly `staticRows records`
and the collection is unchanged), every `change` is 0, and the outcome is
marked stale.  The failure is not propagated to the page-serving caller:
`handle_currencies` is a total function into `Outcome`, not an `Except`. -/
theorem refresh_feed_failure_fallback (records : List Currency)
    (net : Except PyError FeedDoc) (e : PyError)
    (h : get_currencies (records.map (fun c => c.char_code)) net = .error e) :
    handle_currencies records net = ⟨staticRows records, true, records⟩ ∧
    List.Forall₂ (fun c row => Row.value row = c.value ∧ Row.change row = 0)
      records (handle_currencies records net).rows := by
  have h1 : handle_currencies records net =
      ⟨staticRows records, true, records⟩ := by
    simp [handle_currencies, h]
  refine ⟨h1, ?_⟩
  rw [h1]
  exact forall2_staticRows records

/-- Witness for C1: the seed USD record with a transport failure. -/
theorem refresh_feed_failure_fallback_witness :
    handle_currencies [usdSeed] (.error (.requestException "timeout")) =
      ⟨staticRows [usdSeed], true, [usdSeed]⟩ :=
  (refresh_feed_failure_fallback [usdSeed]
    (.error (.requestException "timeout")) (.requestException "timeout")
    rfl).1

/-- Claim C2: when the Feed Client returns a FetchResult (with the positive
rates the FetchResult data model prescribes), the refresh sets each record
whose code is present in the result to the fetched rate, reports
`change = new - old` exactly (0 if the old rate was falsy, i.e. zero), marks
the outcome non-stale, and leaves a record whose code is absent unchanged
with `change = 0`. -/
theorem refresh_success_updates (records : List Currency)
    (net : Except PyError FeedDoc) (api : List (String × ℚ))
    (hok : get_currencies (records.map (fun c => c.char_code)) net = .ok api)
    (hpos : ∀ p ∈ api, 0 < p.2) :
    handle_currencies records net =
      ⟨records.map (successRow api), false, records.map (updatedRecord api)⟩ ∧
    ∀ c ∈ records,
      (∀ v, api.lookup c.char_code = some v →
        (successRow api c).value = v ∧
        (successRow api c).change = (if c.value = 0 then 0 else v - c.value) ∧
        (updatedRecord api c).value = v) ∧
      (api.lookup c.char_code = none →
        (successRow api c).value = c.value ∧ (successRow api c).change = 0 ∧
        updatedRecord api c = c) := by
  constructor
  · simp [handle_currencies, hok, updateLoop_success api hpos records]
  · intro c _
    constructor
    · intro v hv
      refine ⟨by simp [successRow, hv, rowOf], ?_, by simp [updatedRecord, hv]⟩
      simp only [successRow, hv, rowOf]
      by_cases hz : c.value = 0 <;> simp [hz]
    · intro hnone
      exact ⟨by simp [successRow, hnone, rowOf],
        by simp [successRow, hnone, rowOf],
        by simp [updatedRecord, hnone]⟩

/-- Witness for C2: USD and EUR seeds against a well-formed feed. -/
theorem refresh_success_updates_witness :
    handle_currencies [usdSeed, eurSeed] (.ok feedOkDoc) =
      ⟨[successRow [("USD", 92), ("EUR", 99)] usdSeed,
        successRow [("USD", 92), ("EUR", 99)] eurSeed], false,
       [updatedRecord [("USD", 92), ("EUR", 99)] usdSeed,
        updatedRecord [("USD", 92), ("EUR", 99)] eurSeed]⟩ :=
  (refresh_success_updates [usdSeed, eurSeed] (.ok feedOkDoc)
    [("USD", 92), ("EUR", 99)] rfl (by decide)).1

/-- Claim C7: a refresh, successful or failed, changes at most the rate of
each record: `id`, `num_code`, `char_code`, `name` and `nominal` are unchanged
pointwise.  The Feed Client itself (`get_currencies`) takes only the code
list and never touches a `Currency` value at all. -/
theorem refresh_frame_preservation (records : List Currency)
    (net : Except PyError FeedDoc) :
    List.Forall₂ sameFrame records (handle_currencies records net).records := by
  unfold handle_currencies
  cases hg : get_currencies (records.map (fun c => c.char_code)) net with
  | error e => exact forall2_sameFrame_refl records
  | ok api =>
    cases h2 : (updateLoop api records).2.2 with
    | none =>
      simp only [h2]
      exact updateLoop_frame api records
    | some e =>
      simp only [h2]
      exact updateLoop_frame api records

/-- Claim C10: if the Feed Client returned a FetchResult but integrating it
fails partway (the `value` setter raises mid-loop), the refresh still
renders the stale fallback without raising — but from the *current*,
partially updated collection: records updated before the failing one keep
their newly fetched rates. -/
theorem midloop_failure_keeps_earlier_updates (records : List Currency)
    (net : Except PyError FeedDoc) (api : List (String × ℚ))
    (recs2 : List Currency) (rows : List Row) (e : PyError)
    (hok : get_currencies (records.map (fun c => c.char_code)) net = .ok api)
    (hloop : updateLoop api records = (recs2, rows, some e)) :
    handle_currencies records net = ⟨staticRows recs2, true, recs2⟩ := by
  simp [handle_currencies, hok, hloop]

/-- Witness for C10: the feed returns USD = 100 (accepted, overwriting the
seed 90) and EUR = −5 (rejected by the rate setter); the fallback renders
USD at 100, not the prior rate. -/
theorem midloop_failure_keeps_earlier_updates_witness :
    handle_currencies [usdSeed, eurSeed] (.ok feedBadRateDoc) =
      ⟨staticRows [{ usdSeed with value := 100 }, eurSeed], true,
        [{ usdSeed with value := 100 }, eurSeed]⟩ ∧
    ({ usdSeed with value := 100 } : Currency).value ≠ usdSeed.value := by
  constructor
  · exact midloop_failure_keeps_earlier_updates [usdSeed, eurSeed]
      (.ok feedBadRateDoc) [("USD", 100), ("EUR", -5)]
      [{ usdSeed with value := 100 }, eurSeed]
      [rowOf { usdSeed with value := 100 } ((100 : ℚ) - 90)]
      (.valueError "Курс должен быть положительным числом") rfl rfl
  · decide

lemma codeNotFound_msg_ne (c : String) :
    ("Валюта \x27" ++ c ++ "\x27 не найдена") ≠
      "Нет ключа \x27Valute\x27 в данных API" := by
  intro h
  have h2 := congrArg (fun s => s.data.head?) h
  simp only [String.data_append] at h2
  rw [List.append_assoc, List.head?_append_of_ne_nil] at h2
  · revert h2; decide
  · decide

/-- Claim C3: when every requested code is present in the `"Valute"`
mapping of the feed document with a numeric `"Value"`, `get_currencies` returns
normally and its result maps each requested code to the numeric value
of that code and contains no other entries. -/
theorem fetch_success_exact (codes : List String) (doc : FeedDoc)
    (valute : List (String × FeedValue)) (hdoc : doc.valute = some valute)
    (hall : ∀ c ∈ codes, ∃ v, valute.lookup c = some (.num v)) :
    ∃ res, get_currencies codes (.ok doc) = .ok res ∧
      (∀ c ∈ codes, ∀ v, valute.lookup c = some (.num v) →
        res.lookup c = some v) ∧
      (∀ p ∈ res, p.1 ∈ codes) := by
  obtain ⟨res, hres, hlook⟩ := fetchLoop_lookup_ok valute codes [] hall
  refine ⟨res, by simpa [get_currencies, hdoc] using hres, ?_, ?_⟩
  · intro c hc v hv
    rw [hlook c]
    simp [hc, feedNum, hv]
  · intro p hp
    rcases fetchLoop_keys valute codes [] res hres p hp with h | ⟨q, hq, -⟩
    · exact h
    · exact absurd hq (List.not_mem_nil q)

/-- Witness for C3: both seed codes present and numeric in the feed. -/
theorem fetch_success_exact_witness :
    (get_currencies ["USD", "EUR"] (.ok feedOkDoc)).isOk = true := by
  have hall : ∀ c ∈ ["USD", "EUR"], ∃ v,
      ([("USD", FeedValue.num 92), ("EUR", FeedValue.num 99)]).lookup c =
        some (.num v) := by
    intro c hc
    rcases List.mem_cons.mp hc with rfl | hc2
    · exact ⟨92, rfl⟩
    rcases List.mem_cons.mp hc2 with rfl | hc3
    · exact ⟨99, rfl⟩
    exact absurd hc3 (List.not_mem_nil c)
  obtain ⟨res, hres, -, -⟩ :=
    fetch_success_exact ["USD", "EUR"] feedOkDoc
      [("USD", .num 92), ("EUR", .num 99)] rfl hall
  rw [hres]
  rfl

/-- Claim C4: a document without the top-level `"Valute"` key fails with the
`MalformedFeed` error regardless of the requested codes (no code is
inspected and the message names none); with `"Valute"` present, a requested
code that is absent fails with `CodeNotFound(code)` and one with a
non-numeric `"Value"` fails with `InvalidRateType(code)` (each at the first
offending code of the request order); the three failure values are pairwise
distinguishable. -/
theorem fetch_failure_kinds (doc : FeedDoc)
    (valute : List (String × FeedValue)) (pre rest : List String)
    (c : String) :
    (doc.valute = none →
      ∀ codes : List String,
        get_currencies codes (.ok doc) = .error malformedFeedErr) ∧
    (doc.valute = some valute →
      (∀ x ∈ pre, ∃ v, valute.lookup x = some (.num v)) →
      valute.lookup c = none →
      get_currencies (pre ++ c :: rest) (.ok doc) =
        .error (codeNotFoundErr c)) ∧
    (doc.valute = some valute →
      (∀ x ∈ pre, ∃ v, valute.lookup x = some (.num v)) →
      valute.lookup c = some .nonNum →
      get_currencies (pre ++ c :: rest) (.ok doc) =
        .error (invalidRateTypeErr c)) ∧
    malformedFeedErr ≠ codeNotFoundErr c ∧
    malformedFeedErr ≠ invalidRateTypeErr c ∧
    codeNotFoundErr c ≠ invalidRateTypeErr c := by
  refine ⟨?_, ?_, ?_, ?_, ?_, ?_⟩
  · intro h codes
    simp [get_currencies, h]
  · intro hdoc hpre hc
    obtain ⟨acc2, ha⟩ := fetchLoop_through valute pre [] hpre
    simp only [get_currencies, hdoc]
    rw [ha (c :: rest)]
    simp [fetchLoop, hc]
  · intro hdoc hpre hc
    obtain ⟨acc2, ha⟩ := fetchLoop_through valute pre [] hpre
    simp only [get_currencies, hdoc]
    rw [ha (c :: rest)]
    simp [fetchLoop, hc]
  · intro h
    simp only [malformedFeedErr, codeNotFoundErr, PyError.keyError.injEq] at h
    exact codeNotFound_msg_ne c h.symm
  · intro h
    simp [malformedFeedErr, invalidRateTypeErr] at h
  · intro h
    simp [codeNotFoundErr, invalidRateTypeErr] at h

/-- Witness for C4: a missing-`Valute` document, a missing code, a
non-numeric value, and the distinguishability of the resulting errors. -/
theorem fetch_failure_kinds_witness :
    get_currencies ["USD", "EUR"] (.ok feedNoValuteDoc) =
      .error malformedFeedErr ∧
    get_currencies (["USD"] ++ "GBP" :: []) (.ok feedOkDoc) =
      .error (codeNotFoundErr "GBP") ∧
    get_currencies (["EUR"] ++ "USD" :: []) (.ok feedNonNumDoc) =
      .error (invalidRateTypeErr "USD") ∧
    malformedFeedErr ≠ codeNotFoundErr "GBP" := by
  refine ⟨(fetch_failure_kinds feedNoValuteDoc [] [] [] "GBP").1 rfl
    ["USD", "EUR"], ?_, ?_,
    (fetch_failure_kinds feedNoValuteDoc [] [] [] "GBP").2.2.2.1⟩
  · refine (fetch_failure_kinds feedOkDoc [("USD", .num 92), ("EUR", .num 99)]
      ["USD"] [] "GBP").2.1 rfl ?_ rfl
    intro x hx
    rcases List.mem_cons.mp hx with rfl | hx2
    · exact ⟨92, rfl⟩
    exact absurd hx2 (List.not_mem_nil x)
  · refine (fetch_failure_kinds feedNonNumDoc
      [("USD", .nonNum), ("EUR", .num 99)] ["EUR"] [] "USD").2.2.1 rfl ?_ rfl
    intro x hx
    rcases List.mem_cons.mp hx with rfl | hx2
    · exact ⟨99, rfl⟩
    exact absurd hx2 (List.not_mem_nil x)

/-- Claim C9: whenever `get_currencies` returns normally, its result contains
an entry for every requested code — a requested code missing from the feed
always raises instead of being silently omitted — so for a collection
refreshed over its own codes, the success-path branch for a record whose
code is absent from the FetchResult can never execute. -/
theorem fetch_covers_requested (records : List Currency)
    (net : Except PyError FeedDoc) (api : List (String × ℚ))
    (h : get_currencies (records.map (fun c => c.char_code)) net = .ok api) :
    ∀ c ∈ records, (api.lookup c.char_code).isSome = true := by
  intro c hc
  cases net with
  | error e => simp [get_currencies] at h
  | ok doc =>
    cases hval : doc.valute with
    | none => simp [get_currencies, hval] at h
    | some valute =>
      have h2 : fetchLoop valute (records.map (fun x => x.char_code)) [] =
          .ok api := by
        simpa [get_currencies, hval] using h
      exact fetchLoop_covers valute _ [] api h2 c.char_code
        (List.mem_map_of_mem _ hc)

/-- Witness for C9: the code of the USD seed is present in the result of a
successful fetch over the codes of the seeds. -/
theorem fetch_covers_requested_witness :
    (([("USD", (92 : ℚ)), ("EUR", (99 : ℚ))]).lookup
      usdSeed.char_code).isSome = true :=
  fetch_covers_requested [usdSeed, eurSeed] (.ok feedOkDoc)
    [("USD", 92), ("EUR", 99)] rfl usdSeed (by simp)

/-- Claim C5: for every operation and sink, the instrumentation wrapper yields
an operation that returns the original outcome unchanged (same result on
success, the same failure re-raised on error), and whose emitted records
are: on success exactly one INFO start record followed by one INFO
completion record; on failure exactly one INFO start record followed by one
ERROR record (so one INFO and one ERROR in total). -/
theorem logger_instrumentation {α : Type} (name argsStr : String)
    (fmt : α → String) (op : Except PyError α) :
    (loggerWrap name argsStr fmt op).1 = op ∧
    (∀ r : α, op = .ok r →
      (loggerWrap name argsStr fmt op).2 =
        [⟨.info, "Старт " ++ name ++ ", args=" ++ argsStr⟩,
         ⟨.info, "Завершение " ++ name ++ ", результат=" ++ fmt r⟩]) ∧
    (∀ e : PyError, op = .error e →
      (loggerWrap name argsStr fmt op).2 =
        [⟨.info, "Старт " ++ name ++ ", args=" ++ argsStr⟩,
         ⟨.error, e.pyTypeName ++ ": " ++ e.message⟩]) ∧
    (op.isOk = true →
      (loggerWrap name argsStr fmt op).2.countP
          (fun r => r.level == LogLevel.info) = 2 ∧
      (loggerWrap name argsStr fmt op).2.countP
          (fun r => r.level == LogLevel.error) = 0) ∧
    (op.isOk = false →
      (loggerWrap name argsStr fmt op).2.countP
          (fun r => r.level == LogLevel.info) = 1 ∧
      (loggerWrap name argsStr fmt op).2.countP
          (fun r => r.level == LogLevel.error) = 1) := by
  cases op with
  | ok r =>
    refine ⟨rfl, ?_, ?_, ?_, ?_⟩
    · intro r2 h2
      simp_all [loggerWrap]
    · intro e h2
      simp at h2
    · intro _
      simp [loggerWrap, List.countP_cons]
    · intro h2
      simp [Except.isOk, Except.toBool] at h2
  | error e =>
    refine ⟨rfl, ?_, ?_, ?_, ?_⟩
    · intro r2 h2
      simp at h2
    · intro e2 h2
      simp_all [loggerWrap]
    · intro h2
      simp [Except.isOk, Except.toBool] at h2
    · intro _
      simp [loggerWrap, List.countP_cons]

/-- Witness for C5: a succeeding operation and a failing one, wrapped with
a repository-style sink name. -/
theorem logger_instrumentation_witness :
    (loggerWrap "get_currencies" "демо" (fun _ : Unit => "ok")
      (.ok ())).1 = .ok () ∧
    (loggerWrap "get_currencies" "демо" (fun _ : Unit => "ok") (.ok ())).2 =
      [⟨.info, "Старт " ++ "get_currencies" ++ ", args=" ++ "демо"⟩,
       ⟨.info, "Завершение " ++ "get_currencies" ++ ", результат=" ++ "ok"⟩] ∧
    (loggerWrap "get_currencies" "демо" (fun _ : Unit => "ok")
      (.error (.keyError "x"))).1 = .error (.keyError "x") ∧
    (loggerWrap "get_currencies" "демо" (fun _ : Unit => "ok")
      (.error (.keyError "x"))).2 =
      [⟨.info, "Старт " ++ "get_currencies" ++ ", args=" ++ "демо"⟩,
       ⟨.error, "KeyError" ++ ": " ++ "x"⟩] :=
  ⟨(logger_instrumentation "get_currencies" "демо" (fun _ : Unit => "ok")
      (.ok ())).1,
    (logger_instrumentation "get_currencies" "демо" (fun _ : Unit => "ok")
      (.ok ())).2.1 () rfl,
    (logger_instrumentation "get_currencies" "демо" (fun _ : Unit => "ok")
      (.error (.keyError "x"))).1,
    (logger_instrumentation "get_currencies" "демо" (fun _ : Unit => "ok")
      (.error (.keyError "x"))).2.2.1 (.keyError "x") rfl⟩

/-- Claim C6, counterexample: the claim says construction fails for every code
that is not exactly 3 letters, but the source checks only the *length* of
the stripped code (currency.py line 140), so the all-digit code `"123"` is
accepted; and the claim says a non-empty name suffices, but the blank name
`" "` (non-empty) is rejected (currency.py line 168). -/
theorem currency_construction_counterexample :
    (Currency.make 1 840 "123" "Test" 90 1).isOk = true ∧
    ("123".data.all Char.isAlpha) = false ∧
    (Currency.make 1 840 "USD" " " 90 1).isOk = false ∧
    (" " : String) ≠ "" := by
  refine ⟨?_, ?_, ?_, ?_⟩ <;> decide

/-- Claim C6 as amended: construction succeeds for positive `id`, `num_code`,
`rate` and `nominal`, a code whose whitespace-stripped form has exactly 3
characters (letters are not required), and a name with at least one
non-whitespace character, and then `ratePerUnit = rate / nominal` exactly;
construction fails for every non-positive `id`, `num_code`, `rate` or
`nominal`, and for every code whose stripped form is not exactly 3
characters. -/
theorem currency_construction_amended (cid nc : ℤ) (cc nm : String) (v : ℚ)
    (nom : ℤ) :
    ((0 < cid ∧ 0 < nc ∧ (pyStrip cc).length = 3 ∧ pyStrip nm ≠ "" ∧
        0 < v ∧ 0 < nom) →
      ∃ c, Currency.make cid nc cc nm v nom = .ok c ∧
        c.get_value_per_unit = v / (nom : ℚ) ∧ c.value = v ∧
        c.nominal = nom) ∧
    ((cid ≤ 0 ∨ nc ≤ 0 ∨ v ≤ 0 ∨ nom ≤ 0 ∨ (pyStrip cc).length ≠ 3) →
      (Currency.make cid nc cc nm v nom).isOk = false) := by
  constructor
  · intro h
    have hok : (Currency.make cid nc cc nm v nom).isOk = true :=
      (make_ok_iff cid nc cc nm v nom).mpr h
    cases hmk : Currency.make cid nc cc nm v nom with
    | error e =>
      rw [hmk] at hok
      simp [Except.isOk, Except.toBool] at hok
    | ok c =>
      have hc := make_ok_val cid nc cc nm v nom c hmk
      subst hc
      exact ⟨_, rfl, rfl, rfl, rfl⟩
  · intro h
    cases hok : (Currency.make cid nc cc nm v nom).isOk with
    | false => rfl
    | true =>
      have hall := (make_ok_iff cid nc cc nm v nom).mp hok
      rcases h with h | h | h | h | h
      · exact absurd hall.1 (not_lt.mpr h)
      · exact absurd hall.2.1 (not_lt.mpr h)
      · exact absurd hall.2.2.2.2.1 (not_lt.mpr h)
      · exact absurd hall.2.2.2.2.2 (not_lt.mpr h)
      · exact absurd hall.2.2.1 h

/-- Witness for the amended C6: a valid construction succeeds and a
non-positive id fails. -/
theorem currency_construction_amended_witness :
    (Currency.make 5 643 "RUB" "Рубль" 1 1).isOk = true ∧
    (Currency.make 0 643 "RUB" "Рубль" 1 1).isOk = false := by
  constructor
  · obtain ⟨c, hc, -, -, -⟩ :=
      (currency_construction_amended 5 643 "RUB" "Рубль" 1 1).1
        ⟨by decide, by decide, by decide, by decide, by decide, by decide⟩
    rw [hc]
    rfl
  · exact (currency_construction_amended 0 643 "RUB" "Рубль" 1 1).2
      (Or.inl (by decide))

/-- Claim C8: every operation on a constructed Currency — the validated
construction, each of the six setters, and a refresh whether it succeeds or
falls back — preserves `rate > 0` and `nominal > 0`, so
`ratePerUnit = rate / nominal` is always well-defined and positive. -/
theorem rate_positivity_preserved :
    (∀ (cid nc : ℤ) (cc nm : String) (v : ℚ) (nom : ℤ) (c : Currency),
      Currency.make cid nc cc nm v nom = .ok c →
        rateInvariant c ∧ 0 < c.get_value_per_unit) ∧
    (∀ (c c2 : Currency) (x : ℤ), rateInvariant c → c.setId x = .ok c2 →
      rateInvariant c2 ∧ 0 < c2.get_value_per_unit) ∧
    (∀ (c c2 : Currency) (x : ℤ), rateInvariant c → c.setNumCode x = .ok c2 →
      rateInvariant c2 ∧ 0 < c2.get_value_per_unit) ∧
    (∀ (c c2 : Currency) (s : String), rateInvariant c →
      c.setCharCode s = .ok c2 →
        rateInvariant c2 ∧ 0 < c2.get_value_per_unit) ∧
    (∀ (c c2 : Currency) (s : String), rateInvariant c →
      c.setName s = .ok c2 →
        rateInvariant c2 ∧ 0 < c2.get_value_per_unit) ∧
    (∀ (c c2 : Currency) (v : ℚ), rateInvariant c → c.setValue v = .ok c2 →
      rateInvariant c2 ∧ 0 < c2.get_value_per_unit) ∧
    (∀ (c c2 : Currency) (x : ℤ), rateInvariant c → c.setNominal x = .ok c2 →
      rateInvariant c2 ∧ 0 < c2.get_value_per_unit) ∧
    (∀ (records : List Currency) (net : Except PyError FeedDoc),
      (∀ r ∈ records, rateInvariant r) →
      ∀ r ∈ (handle_currencies records net).records,
        rateInvariant r ∧ 0 < r.get_value_per_unit) := by
  refine ⟨?_, ?_, ?_, ?_, ?_, ?_, ?_, ?_⟩
  · intro cid nc cc nm v nom c h
    have hok : (Currency.make cid nc cc nm v nom).isOk = true := by
      rw [h]
      rfl
    have hall := (make_ok_iff cid nc cc nm v nom).mp hok
    have hc := make_ok_val cid nc cc nm v nom c h
    subst hc
    have hinv : rateInvariant ⟨cid, nc, pyUpper (pyStrip cc), pyStrip nm, v, nom⟩ :=
      ⟨hall.2.2.2.2.1, hall.2.2.2.2.2⟩
    exact ⟨hinv, perUnit_pos _ hinv⟩
  · intro c c2 x hc h
    obtain ⟨hv, hn⟩ := setId_ok c c2 x h
    have hinv : rateInvariant c2 := ⟨hv ▸ hc.1, hn ▸ hc.2⟩
    exact ⟨hinv, perUnit_pos _ hinv⟩
  · intro c c2 x hc h
    obtain ⟨hv, hn⟩ := setNumCode_ok c c2 x h
    have hinv : rateInvariant c2 := ⟨hv ▸ hc.1, hn ▸ hc.2⟩
    exact ⟨hinv, perUnit_pos _ hinv⟩
  · intro c c2 s hc h
    obtain ⟨hv, hn⟩ := setCharCode_ok c c2 s h
    have hinv : rateInvariant c2 := ⟨hv ▸ hc.1, hn ▸ hc.2⟩
    exact ⟨hinv, perUnit_pos _ hinv⟩
  · intro c c2 s hc h
    obtain ⟨hv, hn⟩ := setName_ok c c2 s h
    have hinv : rateInvariant c2 := ⟨hv ▸ hc.1, hn ▸ hc.2⟩
    exact ⟨hinv, perUnit_pos _ hinv⟩
  · intro c c2 v hc h
    obtain ⟨hv, hc2⟩ := setValue_ok c c2 v h
    have hinv : rateInvariant c2 := by
      subst hc2
      exact ⟨hv, hc.2⟩
    exact ⟨hinv, perUnit_pos _ hinv⟩
  · intro c c2 x hc h
    obtain ⟨hx, hv, hn⟩ := setNominal_ok c c2 x h
    have hinv : rateInvariant c2 := ⟨hv ▸ hc.1, hn ▸ hx⟩
    exact ⟨hinv, perUnit_pos _ hinv⟩
  · intro records net hinv r hr
    have h2 := handle_records_invariant records net hinv r hr
    exact ⟨h2, perUnit_pos _ h2⟩

/-- Witness for C8: a fresh construction, a rate update, and a refresh with
a failing feed all leave the invariant intact on concrete data. -/
theorem rate_positivity_preserved_witness :
    (rateInvariant ⟨1, 840, "USD", "Test", 90, 1⟩ ∧
      0 < (⟨1, 840, "USD", "Test", 90, 1⟩ : Currency).get_value_per_unit) ∧
    (rateInvariant ⟨1, 840, "USD", "Test", 91, 1⟩ ∧
      0 < (⟨1, 840, "USD", "Test", 91, 1⟩ : Currency).get_value_per_unit) ∧
    (rateInvariant usdSeed ∧ 0 < usdSeed.get_value_per_unit) := by
  refine ⟨?_, ?_, ?_⟩
  · exact rate_positivity_preserved.1 1 840 "USD" "Test" 90 1 _ rfl
  · exact rate_positivity_preserved.2.2.2.2.2.1
      ⟨1, 840, "USD", "Test", 90, 1⟩ _ 91 ⟨by decide, by decide⟩ rfl
  · refine rate_positivity_preserved.2.2.2.2.2.2.2 [usdSeed]
      (.error (.requestException "timeout")) ?_ usdSeed ?_
    · intro r hr
      rcases List.mem_cons.mp hr with rfl | hr2
      · exact ⟨by decide, by decide⟩
      exact absurd hr2 (List.not_mem_nil r)
    · simp [handle_currencies, get_currencies, staticRows]

end CurrencyTracker
